import Mathlib

/-!
Shallow embedding of the tiling engine in `src/engine/engine.ts` (class
`TilingEngine`), together with proofs of the specified properties.

Modelling conventions:
* A window is identified by a natural number (`WinId`); the mutable fields the
  engine touches (`state`, `geometry`, `noBorder`, `actualGeometry`) live in a
  `WinAttrs` record, and an engine state carries the ordered window list plus a
  map from identifiers to attributes.
* The collaborators the engine consumes (driver, configuration, the per-window
  `visible`/`context`/`shouldIgnore`/`shouldFloat` accessors, and the active
  layout's `apply` operation) are bundled in a `Model` record.  The layout is
  deterministic: its geometry assignment is a pure function of the tile list
  and the two areas it receives.
* JavaScript `Array.prototype.indexOf` (first index or `-1`) is `jsIndexOf`;
  JavaScript `%` on integers is truncated remainder, i.e. `Int.tmod`;
  JavaScript `a[i] = x` at index `-1` leaves the array's elements unchanged
  (it creates a non-index property), which `listSet` reflects.
-/

abbrev WinId := Nat

abbrev Ctx := Nat

/-- A rectangle, as the `Rect` value class: position and size, in integers. -/
structure Rect where
  x : Int
  y : Int
  width : Int
  height : Int
deriving DecidableEq, Repr

/-- The window states the engine manipulates (`WindowState` in the source). -/
inductive WindowState where
  | Tile
  | FreeTile
  | Float
deriving DecidableEq, Repr

/-- The mutable per-window fields the engine reads and writes. -/
structure WinAttrs where
  state : WindowState
  geometry : Rect
  noBorder : Bool
  actualGeometry : Rect
deriving DecidableEq, Repr

/-- The configuration snapshot (`CONFIG` in the source). -/
structure Config where
  screenGapLeft : Int
  screenGapTop : Int
  screenGapRight : Int
  screenGapBottom : Int
  noTileBorder : Bool
  maximizeSoleTile : Bool
deriving Repr

/-- The engine's collaborators: driver queries, per-window read-only
accessors, configuration, and the active layout's deterministic `apply`. -/
structure Model where
  config : Config
  visible : WinId → Ctx → Bool
  winContext : WinId → Ctx
  workingArea : Ctx → Rect
  layoutApply : List WinId → Rect → Rect → WinId → Rect
  currentWindow : Option WinId
  currentContext : Ctx
  shouldIgnore : WinId → Bool
  shouldFloat : WinId → Bool

/-- The engine-owned mutable state: the ordered window list and the
attributes of every window. -/
structure EngineState where
  windows : List WinId
  attrs : WinId → WinAttrs

/-- JavaScript `Array.prototype.indexOf`: first index of `w`, or `-1`. -/
def jsIndexOf (l : List WinId) (w : WinId) : Int :=
  if w ∈ l then (List.indexOf w l : Int) else -1

/-- JavaScript indexed assignment `l[i] = x` for `i` produced by `indexOf`:
a true element update for `0 ≤ i < l.length`, and no element change for
`i = -1` (a negative index only creates a non-index property). -/
def listSet (l : List WinId) (i : Int) (w : WinId) : List WinId :=
  if i < 0 then l else l.set i.toNat w

/-- The value-level transposition exchanging `a` and `b`. -/
def transp (a b : WinId) (v : WinId) : WinId :=
  if v = a then b else if v = b then a else v

/-- Gap insets applied to the full working area
(`new Rect(fullArea.x + CONFIG.screenGapLeft, ...)`, engine.ts:57-62). -/
def gapArea (cfg : Config) (full : Rect) : Rect :=
  Rect.mk (full.x + cfg.screenGapLeft) (full.y + cfg.screenGapTop)
    (full.width - (cfg.screenGapLeft + cfg.screenGapRight))
    (full.height - (cfg.screenGapTop + cfg.screenGapBottom))

/-- `this.windows.filter((win) => win.visible(ctx))` (engine.ts:64). -/
def visiblesOf (m : Model) (s : EngineState) (ctx : Ctx) : List WinId :=
  s.windows.filter (fun w => m.visible w ctx)

/-- The tile predicate of engine.ts:65-66: state is `Tile` or `FreeTile`. -/
def isTileable (a : WinAttrs) : Bool :=
  a.state == WindowState.Tile || a.state == WindowState.FreeTile

/-- `visibles.filter((win) => win.state === Tile || win.state === FreeTile)`
(engine.ts:65-66). -/
def tilesOf (m : Model) (s : EngineState) (ctx : Ctx) : List WinId :=
  (visiblesOf m s ctx).filter (fun w => isTileable (s.attrs w))

/-- The per-window body of the reset loop (engine.ts:74-80): promote
`FreeTile` to `Tile`, then set `noBorder` from the configuration on every
window that is now `Tile`. -/
def resetWindow (cfg : Config) (a : WinAttrs) : WinAttrs :=
  let a1 := if a.state == WindowState.FreeTile then { a with state := WindowState.Tile } else a
  if a1.state == WindowState.Tile then { a1 with noBorder := cfg.noTileBorder } else a1

/-- `window.commit()`: flush the target geometry to the host, observed as
the actual geometry. -/
def commitWin (a : WinAttrs) : WinAttrs :=
  { a with actualGeometry := a.geometry }

/-- The result of one `arrangeScreen` pass: the updated attributes, the
invocation of the layout's `apply` (its arguments) when it happened, and the
windows that were committed. -/
structure ArrangeResult where
  attrs : WinId → WinAttrs
  layoutCall : Option (List WinId × Rect × Rect)
  committed : List WinId

/-- The attributes after the reset loop of engine.ts:74-80: every visible
window is reset, every other window is untouched. -/
def arrangeReset (m : Model) (s : EngineState) (ctx : Ctx) (w : WinId) : WinAttrs :=
  if w ∈ visiblesOf m s ctx then resetWindow m.config (s.attrs w) else s.attrs w

/-- The sole-tile-maximization condition of engine.ts:82:
`CONFIG.maximizeSoleTile && tiles.length === 1`. -/
def soleMaxOn (m : Model) (tiles : List WinId) : Bool :=
  m.config.maximizeSoleTile && tiles.length == 1

/-- The attributes after the branch at engine.ts:82-86: either the sole tile
is maximized to the full pre-gap area and made borderless, or the layout's
`apply` assigns every tile its geometry, or (no tiles) nothing changes.  In
the sole-tile branch the source touches `tiles[0]`; there `tiles` is a
singleton, so updating every member of `tiles` is the same update. -/
def arrangeAssign (m : Model) (s : EngineState) (ctx : Ctx) (w : WinId) : WinAttrs :=
  let fullArea := m.workingArea ctx
  let tiles := tilesOf m s ctx
  let a1 := arrangeReset m s ctx w
  if soleMaxOn m tiles then
    if w ∈ tiles then { a1 with noBorder := true, geometry := fullArea } else a1
  else if 0 < tiles.length then
    if w ∈ tiles then { a1 with geometry := m.layoutApply tiles (gapArea m.config fullArea) fullArea w }
    else a1
  else a1

/-- `arrangeScreen(ctx)` (engine.ts:53-89): compute the gapped working area,
partition into visibles and tiles, reset states and borders of visibles,
then either maximize a sole tile to the full pre-gap area (bypassing the
layout) or delegate geometry assignment to the layout, and finally commit
every visible window. -/
def arrangeScreen (m : Model) (s : EngineState) (ctx : Ctx) : ArrangeResult :=
  { attrs := fun w =>
      if w ∈ visiblesOf m s ctx then commitWin (arrangeAssign m s ctx w)
      else arrangeAssign m s ctx w
    layoutCall :=
      if soleMaxOn m (tilesOf m s ctx) then none
      else if 0 < (tilesOf m s ctx).length then
        some (tilesOf m s ctx, gapArea m.config (m.workingArea ctx), m.workingArea ctx)
      else none
    committed := visiblesOf m s ctx }

/-- `enforceClientSize(window)` (engine.ts:91-97): whether the deferred
re-commit timer is scheduled. -/
def enforceClientSize (a : WinAttrs) : Bool :=
  a.state == WindowState.Tile && !(a.actualGeometry == a.geometry)

/-- The deferred callback of `enforceClientSize` (engine.ts:93-96), run on
the window's attributes as they are when the timer fires: commit only if the
window is still tiled, otherwise do nothing (`none`). -/
def deferredCommit (a : WinAttrs) : Option WinAttrs :=
  if a.state == WindowState.Tile then some (commitWin a) else none

/-- `manageClient(window)` (engine.ts:99-104): unless ignored, set the
initial state from `shouldFloat` and push the window onto the list. -/
def manageClient (m : Model) (s : EngineState) (w : WinId) : EngineState :=
  if m.shouldIgnore w then s
  else
    { windows := s.windows ++ [w]
      attrs := fun v =>
        if v = w then
          { s.attrs v with
              state := if m.shouldFloat w then WindowState.Float else WindowState.Tile }
        else s.attrs v }

/-- `unmanageClient(window)` (engine.ts:106-110): remove the window at its
first index if present. -/
def unmanageClient (s : EngineState) (w : WinId) : EngineState :=
  let idx := jsIndexOf s.windows w
  if idx < 0 then s
  else { s with windows := s.windows.eraseIdx idx.toNat }

/-- `moveFocus(step)` (engine.ts:163-185), returning the focus request made
to the driver (`setCurrentWindow`), or `none` when no request is made. -/
def moveFocus (m : Model) (s : EngineState) (step : Int) : Option WinId :=
  if step == 0 then none
  else
    let ctx :=
      match m.currentWindow with
      | some w => m.winContext w
      | none => m.currentContext
    let visibles := s.windows.filter (fun v => m.visible v ctx)
    if visibles.length == 0 then none
    else
      let idx : Int :=
        match m.currentWindow with
        | some w => jsIndexOf visibles w
        | none => -1
      if m.currentWindow.isNone ∨ idx < 0 then visibles[0]?
      else
        let num : Int := visibles.length
        let newIndex := Int.tmod (idx + Int.tmod step num + num) num
        visibles[newIndex.toNat]?

/-- `moveTile(step)` (engine.ts:187-214): swap the current window with the
cyclically chosen destination, by raw index assignment in the underlying
list.  The destination index is always in range, so the `getD` default is
never used. -/
def moveTile (m : Model) (s : EngineState) (step : Int) : EngineState :=
  if step == 0 then s
  else
    match m.currentWindow with
    | none => s
    | some srcWin =>
      let ctx := m.winContext srcWin
      let visibles := s.windows.filter (fun v => m.visible v ctx)
      if visibles.length < 2 then s
      else
        let num : Int := visibles.length
        let srcIdx := jsIndexOf visibles srcWin
        let destIdx := Int.tmod (srcIdx + Int.tmod step num + num) num
        if srcIdx == destIdx then s
        else
          let destWin := visibles.getD destIdx.toNat srcWin
          let srcListIdx := jsIndexOf s.windows srcWin
          let destListIdx := jsIndexOf s.windows destWin
          { s with windows := listSet (listSet s.windows destListIdx srcWin) srcListIdx destWin }

/-- `setMaster(window)` (engine.ts:216-227): no-op when already master or
absent; otherwise splice out and unshift to the front. -/
def setMaster (s : EngineState) (w : WinId) : EngineState :=
  if s.windows.head? = some w then s
  else
    let idx := jsIndexOf s.windows w
    if idx < 0 then s
    else { s with windows := w :: s.windows.eraseIdx idx.toNat }

/-- A client-management event, for reasoning about call sequences. -/
inductive EngineOp where
  | manage (w : WinId)
  | unmanage (w : WinId)
deriving DecidableEq, Repr

/-- Run one management event. -/
def applyOp (m : Model) (s : EngineState) : EngineOp → EngineState
  | .manage w => manageClient m s w
  | .unmanage w => unmanageClient s w

/-- Run a sequence of management events. -/
def applyOps (m : Model) (s : EngineState) : List EngineOp → EngineState
  | [] => s
  | op :: ops => applyOps m (applyOp m s op) ops

/-- The host discipline for a call sequence: no `manage` call targets a
window already present in the list at the time of the call. -/
def okTrace (m : Model) (s : EngineState) : List EngineOp → Bool
  | [] => true
  | op :: ops =>
    (match op with
     | .manage w => !(s.windows.contains w)
     | .unmanage _ => true) && okTrace m (applyOp m s op) ops

/-! Concrete fixtures, used to instantiate the theorems below on closed
inputs. -/

/-- Attributes with a given state and a fixed geometry. -/
def mkAttrs (st : WindowState) : WinAttrs :=
  ⟨st, ⟨0, 0, 100, 100⟩, false, ⟨0, 0, 100, 100⟩⟩

/-- A concrete model with a given configuration, visibility predicate and
current window; one screen at context 0, working area 1280x720, and a
deterministic layout that offsets each tile by its index. -/
def mkModel (cfg : Config) (vis : WinId → Bool) (cur : Option WinId) : Model :=
  { config := cfg
    visible := fun w _ => vis w
    winContext := fun _ => 0
    workingArea := fun _ => ⟨0, 0, 1280, 720⟩
    layoutApply := fun tiles wa _ w => ⟨wa.x + (List.indexOf w tiles : Int), wa.y, wa.width, wa.height⟩
    currentWindow := cur
    currentContext := 0
    shouldIgnore := fun w => w == 99
    shouldFloat := fun _ => false }

def cfgMax : Config := ⟨8, 8, 8, 8, false, true⟩

def cfgNoMax : Config := ⟨8, 8, 8, 8, true, false⟩

def cfgBigGaps : Config := ⟨700, 400, 700, 400, false, false⟩

/-- Window 0 is invisible; sole-tile maximization on. -/
def modInv0 : Model := mkModel cfgMax (fun w => w != 0) (some 0)

/-- Everything visible; sole-tile maximization off. -/
def modAll : Model := mkModel cfgNoMax (fun _ => true) (some 0)

/-- Everything visible; sole-tile maximization on. -/
def modAllMax : Model := mkModel cfgMax (fun _ => true) (some 0)

/-- Everything visible; gap insets exceed the working area. -/
def modBigGaps : Model := mkModel cfgBigGaps (fun _ => true) none

def stFree3 : EngineState := ⟨[0, 1, 2], fun _ => mkAttrs WindowState.FreeTile⟩

def stTile4 : EngineState := ⟨[0, 1, 2, 3], fun _ => mkAttrs WindowState.Tile⟩

/-- Only window 1 is tileable. -/
def stSole : EngineState := ⟨[0, 1, 2], fun w => mkAttrs (if w == 1 then WindowState.Tile else WindowState.Float)⟩

def stMaster4 : EngineState := ⟨[10, 20, 30, 40], fun _ => mkAttrs WindowState.Tile⟩

def stEmpty : EngineState := ⟨[], fun _ => mkAttrs WindowState.Tile⟩

/-- A tiled window whose observed geometry disagrees with its target. -/
def attrsMismatch : WinAttrs := ⟨WindowState.Tile, ⟨0, 0, 100, 100⟩, false, ⟨5, 5, 100, 100⟩⟩

/-! Basic lemmas about the per-window operations. -/

theorem commitWin_state (a : WinAttrs) : (commitWin a).state = a.state := rfl

theorem commitWin_geometry (a : WinAttrs) : (commitWin a).geometry = a.geometry := rfl

theorem commitWin_noBorder (a : WinAttrs) : (commitWin a).noBorder = a.noBorder := rfl

theorem resetWindow_geometry (cfg : Config) (a : WinAttrs) :
    (resetWindow cfg a).geometry = a.geometry := by
  rcases a with ⟨st, g, nb, ag⟩
  cases st <;> simp [resetWindow]

theorem resetWindow_actualGeometry (cfg : Config) (a : WinAttrs) :
    (resetWindow cfg a).actualGeometry = a.actualGeometry := by
  rcases a with ⟨st, g, nb, ag⟩
  cases st <;> simp [resetWindow]

theorem resetWindow_state (cfg : Config) (a : WinAttrs) :
    (resetWindow cfg a).state =
      if a.state = WindowState.FreeTile then WindowState.Tile else a.state := by
  rcases a with ⟨st, g, nb, ag⟩
  cases st <;> simp [resetWindow]

theorem resetWindow_state_ne_free (cfg : Config) (a : WinAttrs) :
    (resetWindow cfg a).state ≠ WindowState.FreeTile := by
  rw [resetWindow_state]
  rcases a with ⟨st, g, nb, ag⟩
  cases st <;> simp

theorem isTileable_resetWindow (cfg : Config) (a : WinAttrs) :
    isTileable (resetWindow cfg a) = isTileable a := by
  rcases a with ⟨st, g, nb, ag⟩
  cases st <;> simp [resetWindow, isTileable]

theorem arrangeAssign_state (m : Model) (s : EngineState) (ctx : Ctx) (w : WinId) :
    (arrangeAssign m s ctx w).state = (arrangeReset m s ctx w).state := by
  unfold arrangeAssign
  dsimp only
  (repeat' split) <;> rfl

theorem arrangeScreen_attrs_state (m : Model) (s : EngineState) (ctx : Ctx) (w : WinId) :
    ((arrangeScreen m s ctx).attrs w).state = (arrangeReset m s ctx w).state := by
  simp only [arrangeScreen]
  split
  · rw [commitWin_state, arrangeAssign_state]
  · rw [arrangeAssign_state]

theorem visiblesOf_windows (m : Model) (s : EngineState) (ctx : Ctx) (w : WinId)
    (h : m.visible w ctx = false) : w ∉ visiblesOf m s ctx := by
  simp [visiblesOf, List.mem_filter, h]

theorem tilesOf_sub_visibles (m : Model) (s : EngineState) (ctx : Ctx) (w : WinId)
    (h : w ∈ tilesOf m s ctx) : w ∈ visiblesOf m s ctx :=
  List.mem_of_mem_filter h

theorem arrangeAssign_of_not_tile (m : Model) (s : EngineState) (ctx : Ctx) (w : WinId)
    (ht : w ∉ tilesOf m s ctx) :
    arrangeAssign m s ctx w = arrangeReset m s ctx w := by
  unfold arrangeAssign
  dsimp only
  simp [ht]

theorem arrangeScreen_attrs_of_not_visible (m : Model) (s : EngineState) (ctx : Ctx) (w : WinId)
    (hv : w ∉ visiblesOf m s ctx) :
    (arrangeScreen m s ctx).attrs w = s.attrs w := by
  have ht : w ∉ tilesOf m s ctx := fun hw => hv (tilesOf_sub_visibles m s ctx w hw)
  have hreset : arrangeReset m s ctx w = s.attrs w := by
    simp [arrangeReset, hv]
  simp only [arrangeScreen]
  rw [if_neg hv, arrangeAssign_of_not_tile m s ctx w ht, hreset]

theorem isTileable_congr {a b : WinAttrs} (h : a.state = b.state) :
    isTileable a = isTileable b := by
  simp [isTileable, h]

theorem tilesOf_arrangeScreen (m : Model) (s : EngineState) (ctx : Ctx) :
    tilesOf m { windows := s.windows, attrs := (arrangeScreen m s ctx).attrs } ctx
      = tilesOf m s ctx := by
  unfold tilesOf
  have hvis : visiblesOf m { windows := s.windows, attrs := (arrangeScreen m s ctx).attrs } ctx
      = visiblesOf m s ctx := rfl
  rw [hvis]
  apply List.filter_congr
  intro v hv
  have h1 : ((arrangeScreen m s ctx).attrs v).state = (arrangeReset m s ctx v).state :=
    arrangeScreen_attrs_state m s ctx v
  have h2 : arrangeReset m s ctx v = resetWindow m.config (s.attrs v) := by
    unfold arrangeReset
    rw [if_pos hv]
  calc isTileable ((arrangeScreen m s ctx).attrs v)
      = isTileable (arrangeReset m s ctx v) := isTileable_congr h1
    _ = isTileable (resetWindow m.config (s.attrs v)) := by rw [h2]
    _ = isTileable (s.attrs v) := isTileable_resetWindow m.config (s.attrs v)

/-- Claim C10: `arrangeScreen(ctx)` mutates only windows visible in `ctx`:
an invisible window keeps its state, `noBorder` flag and geometry (its whole
attribute record is unchanged), and it is not committed by the pass. -/
theorem arrangeScreen_invisible_untouched (m : Model) (s : EngineState) (ctx : Ctx) (w : WinId)
    (h : m.visible w ctx = false) :
    (arrangeScreen m s ctx).attrs w = s.attrs w ∧
    w ∉ (arrangeScreen m s ctx).committed := by
  have hv : w ∉ visiblesOf m s ctx := visiblesOf_windows m s ctx w h
  refine ⟨arrangeScreen_attrs_of_not_visible m s ctx w hv, ?_⟩
  simpa [arrangeScreen] using hv

/-- Witness for C10 on a concrete state: window 0 is invisible and a pass
leaves it untouched and uncommitted. -/
theorem arrangeScreen_invisible_untouched_witness :
    (modInv0.visible 0 0 = false) ∧
    ((arrangeScreen modInv0 stFree3 0).attrs 0 = stFree3.attrs 0 ∧
      0 ∉ (arrangeScreen modInv0 stFree3 0).committed) :=
  ⟨by decide, arrangeScreen_invisible_untouched modInv0 stFree3 0 0 (by decide)⟩

/-- Claim C7: whenever `arrangeScreen` invokes the layout's `apply`, the
effective working area it passes is exactly the full driver area shifted by
the left/top gap insets and shrunk by the horizontal/vertical inset sums;
a zero or negative resulting width or height is passed through unchanged,
never treated as an error. -/
theorem arrangeScreen_gapped_area (m : Model) (s : EngineState) (ctx : Ctx)
    (ts : List WinId) (wa fa : Rect)
    (h : (arrangeScreen m s ctx).layoutCall = some (ts, wa, fa)) :
    fa = m.workingArea ctx ∧
    wa = Rect.mk (fa.x + m.config.screenGapLeft) (fa.y + m.config.screenGapTop)
      (fa.width - (m.config.screenGapLeft + m.config.screenGapRight))
      (fa.height - (m.config.screenGapTop + m.config.screenGapBottom)) ∧
    ts = tilesOf m s ctx := by
  simp only [arrangeScreen] at h
  split at h
  · exact absurd h (by simp)
  · split at h
    · simp only [Option.some_inj, Prod.mk.injEq] at h
      obtain ⟨h1, h2, h3⟩ := h
      subst h1
      subst h2
      subst h3
      exact ⟨rfl, rfl, rfl⟩
    · exact absurd h (by simp)

/-- Witness for C7: gaps (700, 400, 700, 400) on a 1280x720 area yield the
degenerate effective area (700, 400, -120, -80), which is passed to the
layout unchanged. -/
theorem arrangeScreen_gapped_area_witness :
    ((arrangeScreen modBigGaps stTile4 0).layoutCall =
      some ([0, 1, 2, 3], Rect.mk 700 400 (-120) (-80), Rect.mk 0 0 1280 720)) ∧
    (Rect.mk 0 0 1280 720 = modBigGaps.workingArea 0 ∧
      Rect.mk 700 400 (-120) (-80) =
        Rect.mk ((Rect.mk 0 0 1280 720).x + modBigGaps.config.screenGapLeft)
          ((Rect.mk 0 0 1280 720).y + modBigGaps.config.screenGapTop)
          ((Rect.mk 0 0 1280 720).width -
            (modBigGaps.config.screenGapLeft + modBigGaps.config.screenGapRight))
          ((Rect.mk 0 0 1280 720).height -
            (modBigGaps.config.screenGapTop + modBigGaps.config.screenGapBottom)) ∧
      [0, 1, 2, 3] = tilesOf modBigGaps stTile4 0) :=
  ⟨by decide, arrangeScreen_gapped_area modBigGaps stTile4 0 _ _ _ (by decide)⟩

/-- Claim C9: `enforceClientSize` schedules the deferred re-commit exactly
when the window is tiled and its observed geometry differs from its target,
and the deferred callback never commits a window that is no longer tiled
when it fires. -/
theorem enforceClientSize_spec :
    (∀ a : WinAttrs, enforceClientSize a = true ↔
      (a.state = WindowState.Tile ∧ a.actualGeometry ≠ a.geometry)) ∧
    (∀ a : WinAttrs, a.state ≠ WindowState.Tile → deferredCommit a = none) := by
  constructor
  · intro a
    simp [enforceClientSize]
  · intro a h
    simp [deferredCommit, h]

/-- Witness for C9: a tiled window with a geometry mismatch schedules the
re-commit, and a floated window makes the fired callback decline to act. -/
theorem enforceClientSize_spec_witness :
    (enforceClientSize attrsMismatch = true) ∧
    ((mkAttrs WindowState.Float).state ≠ WindowState.Tile ∧
      deferredCommit (mkAttrs WindowState.Float) = none) :=
  ⟨(enforceClientSize_spec.1 attrsMismatch).mpr (by decide),
   by decide, enforceClientSize_spec.2 (mkAttrs WindowState.Float) (by decide)⟩

/-- Claim C3: with sole-tile maximization enabled and exactly one window in
the tiles partition, that window ends the pass with the full pre-gap working
area as geometry and `noBorder = true`, and the layout's `apply` is not
invoked. -/
theorem arrangeScreen_soleTile (m : Model) (s : EngineState) (ctx : Ctx) (t : WinId)
    (hmax : m.config.maximizeSoleTile = true)
    (htiles : tilesOf m s ctx = [t]) :
    ((arrangeScreen m s ctx).attrs t).geometry = m.workingArea ctx ∧
    ((arrangeScreen m s ctx).attrs t).noBorder = true ∧
    (arrangeScreen m s ctx).layoutCall = none := by
  have hsole : soleMaxOn m (tilesOf m s ctx) = true := by
    simp [soleMaxOn, hmax, htiles]
  have htmem : t ∈ tilesOf m s ctx := by
    rw [htiles]
    exact List.mem_singleton_self t
  have htv : t ∈ visiblesOf m s ctx := tilesOf_sub_visibles m s ctx t htmem
  have hassign : arrangeAssign m s ctx t =
      { arrangeReset m s ctx t with noBorder := true, geometry := m.workingArea ctx } := by
    unfold arrangeAssign
    dsimp only
    rw [if_pos hsole, if_pos htmem]
  refine ⟨?_, ?_, ?_⟩
  · simp only [arrangeScreen]
    rw [if_pos htv, commitWin_geometry, hassign]
  · simp only [arrangeScreen]
    rw [if_pos htv, commitWin_noBorder, hassign]
  · simp only [arrangeScreen]
    rw [if_pos hsole]

/-- Witness for C3 on a concrete state: window 1 is the only tile and is
maximized to the full 1280x720 area without a layout call. -/
theorem arrangeScreen_soleTile_witness :
    (modAllMax.config.maximizeSoleTile = true ∧ tilesOf modAllMax stSole 0 = [1]) ∧
    (((arrangeScreen modAllMax stSole 0).attrs 1).geometry = modAllMax.workingArea 0 ∧
      ((arrangeScreen modAllMax stSole 0).attrs 1).noBorder = true ∧
      (arrangeScreen modAllMax stSole 0).layoutCall = none) :=
  ⟨⟨by decide, by decide⟩, arrangeScreen_soleTile modAllMax stSole 0 1 (by decide) (by decide)⟩

/-- Claim C8 counterexample: window 0 is in the window list and in state
FreeTile, yet after an `arrangeScreen` pass it is still FreeTile and not
Tile, because it is not visible in the arranged context and the reset loop
only runs over visible windows. -/
theorem arrangeScreen_freeTile_cex :
    (0 : WinId) ∈ stFree3.windows ∧
    (stFree3.attrs 0).state = WindowState.FreeTile ∧
    ((arrangeScreen modInv0 stFree3 0).attrs 0).state ≠ WindowState.Tile := by
  decide

/-- Claim C8 as amended: every window of the list that is visible in `ctx`
and in state FreeTile is promoted to Tile by the pass, after the pass no
visible listed window remains FreeTile, and a second pass keeps the window
in state Tile. -/
theorem arrangeScreen_freeTile_promoted (m : Model) (s : EngineState) (ctx : Ctx) (w : WinId)
    (hw : w ∈ s.windows) (hvis : m.visible w ctx = true)
    (hst : (s.attrs w).state = WindowState.FreeTile) :
    ((arrangeScreen m s ctx).attrs w).state = WindowState.Tile ∧
    (∀ v ∈ s.windows, m.visible v ctx = true →
      ((arrangeScreen m s ctx).attrs v).state ≠ WindowState.FreeTile) ∧
    ((arrangeScreen m { windows := s.windows, attrs := (arrangeScreen m s ctx).attrs } ctx).attrs w).state
      = WindowState.Tile := by
  have hwv : w ∈ visiblesOf m s ctx := by
    simp [visiblesOf, List.mem_filter, hw, hvis]
  have h1 : ((arrangeScreen m s ctx).attrs w).state = WindowState.Tile := by
    rw [arrangeScreen_attrs_state]
    unfold arrangeReset
    rw [if_pos hwv, resetWindow_state, hst]
    simp
  refine ⟨h1, ?_, ?_⟩
  · intro v hv hvv
    have hvmem : v ∈ visiblesOf m s ctx := by
      simp [visiblesOf, List.mem_filter, hv, hvv]
    rw [arrangeScreen_attrs_state]
    unfold arrangeReset
    rw [if_pos hvmem]
    exact resetWindow_state_ne_free m.config (s.attrs v)
  · set s1 : EngineState := { windows := s.windows, attrs := (arrangeScreen m s ctx).attrs }
    have hwv1 : w ∈ visiblesOf m s1 ctx := hwv
    rw [arrangeScreen_attrs_state]
    unfold arrangeReset
    rw [if_pos hwv1, resetWindow_state]
    have : (s1.attrs w).state = WindowState.Tile := h1
    rw [this]
    simp

/-- Witness for the amended C8: visible window 1 starts FreeTile in
`stFree3` and is Tile after one pass and after a second pass. -/
theorem arrangeScreen_freeTile_promoted_witness :
    ((1 : WinId) ∈ stFree3.windows ∧ modInv0.visible 1 0 = true ∧
      (stFree3.attrs 1).state = WindowState.FreeTile) ∧
    (((arrangeScreen modInv0 stFree3 0).attrs 1).state = WindowState.Tile ∧
      (∀ v ∈ stFree3.windows, modInv0.visible v 0 = true →
        ((arrangeScreen modInv0 stFree3 0).attrs v).state ≠ WindowState.FreeTile) ∧
      ((arrangeScreen modInv0
          { windows := stFree3.windows, attrs := (arrangeScreen modInv0 stFree3 0).attrs } 0).attrs 1).state
        = WindowState.Tile) :=
  ⟨⟨by decide, by decide, by decide⟩,
   arrangeScreen_freeTile_promoted modInv0 stFree3 0 1 (by decide) (by decide) (by decide)⟩

/-- Negating the dividend negates the truncated remainder. -/
theorem tmod_neg_arg (s n : Int) : (-s).tmod n = -(s.tmod n) := by
  rw [Int.tmod_def, Int.tmod_def, Int.neg_tdiv]
  ring

/-- The index wrap `(idx + (step % num) + num) % num` of engine.ts:181 (with
JavaScript `%` as truncated remainder) equals the non-negative residue of
`idx + step` modulo `num`, for any in-range starting index. -/
theorem jsWrapIndex (i s n : Int) (h0 : 0 ≤ i) (hn : i < n) :
    Int.tmod (i + Int.tmod s n + n) n = (i + s) % n := by
  have hnpos : 0 < n := lt_of_le_of_lt h0 hn
  have hlb : -n < Int.tmod s n := by
    rcases le_or_lt 0 s with hs | hs
    · rw [Int.tmod_eq_emod hs hnpos.le]
      have := Int.emod_nonneg s (ne_of_gt hnpos)
      omega
    · have h1 : Int.tmod s n = -Int.tmod (-s) n := by
        rw [tmod_neg_arg]; ring
      rw [h1, Int.tmod_eq_emod (by omega) hnpos.le]
      have := Int.emod_lt_of_pos (-s) hnpos
      omega
  have hX : 0 ≤ i + Int.tmod s n + n := by omega
  rw [Int.tmod_eq_emod hX hnpos.le]
  have h2 : i + Int.tmod s n + n = i + s + n * (1 - Int.tdiv s n) := by
    rw [Int.tmod_def]; ring
  rw [h2, Int.add_mul_emod_self_left]

theorem jsIndexOf_of_mem (l : List WinId) (w : WinId) (h : w ∈ l) :
    jsIndexOf l w = (List.indexOf w l : Int) := by
  simp [jsIndexOf, h]

/-- Claim C4: with a current window at visible index `i` among `N ≥ 1`
context-visible windows, `moveFocus(step)` requests focus of the visible
window at index `(i + step) mod N`, the modulo taken non-negative; and
`moveFocus(0)` makes no request at all. -/
theorem moveFocus_spec (m : Model) (s : EngineState) (w : WinId) (i : Nat) (step : Int)
    (hcur : m.currentWindow = some w)
    (hnd : s.windows.Nodup)
    (hi : (s.windows.filter (fun v => m.visible v (m.winContext w)))[i]? = some w)
    (hstep : step ≠ 0) :
    moveFocus m s step =
      (s.windows.filter (fun v => m.visible v (m.winContext w)))[
        ((((i : Int) + step) %
          ((s.windows.filter (fun v => m.visible v (m.winContext w))).length : Int)).toNat)]? ∧
    moveFocus m s 0 = none := by
  constructor
  · set vis := s.windows.filter (fun v => m.visible v (m.winContext w)) with hvis
    obtain ⟨hlen, hget⟩ := List.getElem?_eq_some.mp hi
    have hvnd : vis.Nodup := hnd.filter _
    have hidx : List.indexOf w vis = i := by
      have h := List.indexOf_getElem hvnd i hlen
      rw [hget] at h
      exact h
    have hw : w ∈ vis := hget ▸ List.getElem_mem hlen
    have hb0 : (step == 0) = false := by simpa using hstep
    have hb1 : (vis.length == 0) = false := by
      simp only [beq_eq_false_iff_ne, ne_eq]
      omega
    have hjs : jsIndexOf vis w = (i : Int) := by
      rw [jsIndexOf_of_mem vis w hw, hidx]
    simp only [moveFocus, hcur, hb0, Bool.false_eq_true, if_false, ← hvis, hb1, hjs,
      Option.isNone_some]
    rw [if_neg]
    · rw [jsWrapIndex (i : Int) step (vis.length : Int) (by omega) (by exact_mod_cast hlen)]
    · simp
  · simp [moveFocus]

/-- Witness for C4: four visible windows, current at index 0, step −5 lands
at index 3 (`(0 − 5) mod 4 = 3`), and step 0 makes no focus request. -/
theorem moveFocus_spec_witness :
    (modAll.currentWindow = some 0 ∧ stTile4.windows.Nodup ∧
      (stTile4.windows.filter (fun v => modAll.visible v (modAll.winContext 0)))[0]? = some (0 : WinId) ∧
      (-5 : Int) ≠ 0) ∧
    (moveFocus modAll stTile4 (-5) = some 3 ∧ moveFocus modAll stTile4 0 = none) :=
  ⟨⟨by decide, by decide, by decide, by decide⟩,
   (moveFocus_spec modAll stTile4 0 0 (-5) (by decide) (by decide) (by decide) (by decide)).1.trans
     (by decide),
   (moveFocus_spec modAll stTile4 0 0 (-5) (by decide) (by decide) (by decide) (by decide)).2⟩

/-- Claim C5: `setMaster(w)` with `w` at index `k > 0` moves `w` to index 0,
shifts the windows previously at indices `0..k-1` to `1..k` in order, leaves
every window after index `k` at its index, and is a no-op when `w` is
already master or is not in the list. -/
theorem setMaster_spec :
    (∀ (s : EngineState) (w : WinId) (k : Nat),
      s.windows.Nodup → 0 < k → s.windows[k]? = some w →
      (setMaster s w).windows[0]? = some w ∧
      (∀ j : Nat, j < k → (setMaster s w).windows[j + 1]? = s.windows[j]?) ∧
      (∀ j : Nat, k < j → (setMaster s w).windows[j]? = s.windows[j]?)) ∧
    (∀ (s : EngineState) (w : WinId), s.windows.head? = some w → setMaster s w = s) ∧
    (∀ (s : EngineState) (w : WinId), w ∉ s.windows → setMaster s w = s) := by
  refine ⟨?_, ?_, ?_⟩
  · intro s w k hnd hk hw
    obtain ⟨hlen, hget⟩ := List.getElem?_eq_some.mp hw
    have hidx : List.indexOf w s.windows = k := by
      have h := List.indexOf_getElem hnd k hlen
      rw [hget] at h
      exact h
    have hmem : w ∈ s.windows := hget ▸ List.getElem_mem hlen
    have hhead : ¬ (s.windows.head? = some w) := by
      intro hh
      rw [List.head?_eq_getElem?] at hh
      obtain ⟨h0, hg0⟩ := List.getElem?_eq_some.mp hh
      have h1 := List.indexOf_getElem hnd 0 h0
      rw [hg0] at h1
      omega
    have hjs : jsIndexOf s.windows w = (k : Int) := by
      rw [jsIndexOf_of_mem _ _ hmem, hidx]
    have hres : (setMaster s w).windows = w :: s.windows.eraseIdx k := by
      unfold setMaster
      rw [if_neg hhead]
      dsimp only
      rw [hjs, if_neg (by omega : ¬ ((k : Nat) : Int) < 0)]
      rw [Int.toNat_natCast]
    refine ⟨?_, ?_, ?_⟩
    · rw [hres]
      exact List.getElem?_cons_zero
    · intro j hj
      rw [hres, List.getElem?_cons_succ, List.eraseIdx_eq_take_drop_succ,
        List.getElem?_append_left (by rw [List.length_take]; exact lt_min hj (hj.trans hlen)),
        List.getElem?_take, if_pos hj]
    · intro j hj
      rw [hres]
      cases j with
      | zero => omega
      | succ j' =>
        rw [List.getElem?_cons_succ, List.eraseIdx_eq_take_drop_succ,
          List.getElem?_append_right (by rw [List.length_take]; omega),
          List.getElem?_drop]
        congr 1
        rw [List.length_take]
        omega
  · intro s w hh
    unfold setMaster
    rw [if_pos hh]
  · intro s w hmem
    have hhead : ¬ (s.windows.head? = some w) := by
      intro hh
      exact hmem (List.mem_of_mem_head? (hh ▸ Option.mem_def.mpr rfl))
    have hjs : jsIndexOf s.windows w = -1 := by
      simp [jsIndexOf, hmem]
    unfold setMaster
    rw [if_neg hhead]
    dsimp only
    rw [hjs, if_pos (by omega : (-1 : Int) < 0)]

/-- Witness for C5: in list [10, 20, 30, 40], `setMaster 30` yields
[30, 10, 20, 40]; `setMaster 10` and `setMaster 99` are no-ops. -/
theorem setMaster_spec_witness :
    (stMaster4.windows.Nodup ∧ 0 < 2 ∧ stMaster4.windows[2]? = some 30 ∧
      stMaster4.windows.head? = some 10 ∧ (99 : WinId) ∉ stMaster4.windows) ∧
    ((setMaster stMaster4 30).windows[0]? = some 30 ∧
      (setMaster stMaster4 30).windows[1]? = stMaster4.windows[0]? ∧
      (setMaster stMaster4 30).windows[3]? = stMaster4.windows[3]? ∧
      setMaster stMaster4 10 = stMaster4 ∧
      setMaster stMaster4 99 = stMaster4) :=
  ⟨⟨by decide, by decide, by decide, by decide, by decide⟩,
   (setMaster_spec.1 stMaster4 30 2 (by decide) (by decide) (by decide)).1,
   (setMaster_spec.1 stMaster4 30 2 (by decide) (by decide) (by decide)).2.1 0 (by decide),
   (setMaster_spec.1 stMaster4 30 2 (by decide) (by decide) (by decide)).2.2 3 (by decide),
   setMaster_spec.2.1 stMaster4 10 (by decide),
   setMaster_spec.2.2 stMaster4 99 (by decide)⟩

/-- Claim C1: with a fixed window list, visibilities, configuration, driver
area and deterministic layout, a second consecutive `arrangeScreen(ctx)`
pass assigns every window exactly the geometry the first pass assigned (no
cumulative drift). -/
theorem arrangeScreen_idempotent (m : Model) (s : EngineState) (ctx : Ctx) (w : WinId) :
    ((arrangeScreen m { windows := s.windows, attrs := (arrangeScreen m s ctx).attrs } ctx).attrs w).geometry
      = ((arrangeScreen m s ctx).attrs w).geometry := by
  set s1 : EngineState := { windows := s.windows, attrs := (arrangeScreen m s ctx).attrs } with hs1
  have hvis : visiblesOf m s1 ctx = visiblesOf m s ctx := rfl
  have htiles : tilesOf m s1 ctx = tilesOf m s ctx := tilesOf_arrangeScreen m s ctx
  by_cases hv : w ∈ visiblesOf m s ctx
  · have hv1 : w ∈ visiblesOf m s1 ctx := by rw [hvis]; exact hv
    have h2 : ((arrangeScreen m s1 ctx).attrs w).geometry = (arrangeAssign m s1 ctx w).geometry := by
      simp only [arrangeScreen]
      rw [if_pos hv1, commitWin_geometry]
    have h1 : ((arrangeScreen m s ctx).attrs w).geometry = (arrangeAssign m s ctx w).geometry := by
      simp only [arrangeScreen]
      rw [if_pos hv, commitWin_geometry]
    have hreset1 : (arrangeReset m s1 ctx w).geometry = (arrangeAssign m s ctx w).geometry := by
      have ha : (arrangeReset m s1 ctx w).geometry = (s1.attrs w).geometry := by
        unfold arrangeReset
        rw [if_pos hv1, resetWindow_geometry]
      rw [ha]
      exact h1
    rw [h2, h1]
    unfold arrangeAssign
    dsimp only
    rw [htiles]
    by_cases hm : soleMaxOn m (tilesOf m s ctx) = true
    · rw [if_pos hm, if_pos hm]
      by_cases ht : w ∈ tilesOf m s ctx
      · rw [if_pos ht, if_pos ht]
      · rw [if_neg ht, if_neg ht]
        rw [hreset1]
        exact (arrangeAssign_of_not_tile m s ctx w ht ▸ rfl : (arrangeAssign m s ctx w).geometry = (arrangeReset m s ctx w).geometry)
    · rw [if_neg hm, if_neg hm]
      by_cases hlen : 0 < (tilesOf m s ctx).length
      · rw [if_pos hlen, if_pos hlen]
        by_cases ht : w ∈ tilesOf m s ctx
        · rw [if_pos ht, if_pos ht]
        · rw [if_neg ht, if_neg ht]
          rw [hreset1]
          exact (arrangeAssign_of_not_tile m s ctx w ht ▸ rfl : (arrangeAssign m s ctx w).geometry = (arrangeReset m s ctx w).geometry)
      · rw [if_neg hlen, if_neg hlen]
        have ht : w ∉ tilesOf m s ctx := fun hw => hlen (List.length_pos_of_mem hw)
        rw [hreset1]
        exact (arrangeAssign_of_not_tile m s ctx w ht ▸ rfl : (arrangeAssign m s ctx w).geometry = (arrangeReset m s ctx w).geometry)
  · have hv1 : w ∉ visiblesOf m s1 ctx := by rw [hvis]; exact hv
    rw [arrangeScreen_attrs_of_not_visible m s1 ctx w hv1]

/-- Claim C2 counterexample: `manageClient` has no duplicate guard; calling
it twice with the same non-ignored window 0 starting from the empty list
yields the list [0, 0], in which window 0 occurs twice. -/
theorem manageClient_duplicate_cex :
    modAll.shouldIgnore 0 = false ∧
    (applyOps modAll stEmpty [EngineOp.manage 0, EngineOp.manage 0]).windows = [0, 0] ∧
    ¬ (applyOps modAll stEmpty [EngineOp.manage 0, EngineOp.manage 0]).windows.Nodup := by
  decide

/-- Claim C2 as amended: after any sequence of `manageClient`/`unmanageClient`
calls in which no `manageClient` call targets a window already in the list at
the time of the call, the window list contains each window at most once. -/
theorem applyOps_nodup (m : Model) (s : EngineState) (ops : List EngineOp)
    (hs : s.windows.Nodup) (h : okTrace m s ops = true) :
    (applyOps m s ops).windows.Nodup := by
  induction ops generalizing s with
  | nil => exact hs
  | cons op ops ih =>
    rw [okTrace.eq_def, Bool.and_eq_true] at h
    obtain ⟨h1, h2⟩ := h
    refine ih (applyOp m s op) ?_ h2
    cases op with
    | manage w =>
      have hw : w ∉ s.windows := by
        simpa using h1
      simp only [applyOp, manageClient]
      split
      · exact hs
      · simp [List.nodup_append, hs, hw]
    | unmanage w =>
      simp only [applyOp, unmanageClient]
      split
      · exact hs
      · exact (List.eraseIdx_sublist _ _).nodup hs

/-- Witness for the amended C2: manage 0, manage 1, unmanage 0, manage 0 is
a disciplined trace from the empty list and ends with a duplicate-free
list. -/
theorem applyOps_nodup_witness :
    (stEmpty.windows.Nodup ∧
      okTrace modAll stEmpty
        [EngineOp.manage 0, EngineOp.manage 1, EngineOp.unmanage 0, EngineOp.manage 0] = true) ∧
    (applyOps modAll stEmpty
      [EngineOp.manage 0, EngineOp.manage 1, EngineOp.unmanage 0, EngineOp.manage 0]).windows.Nodup :=
  ⟨⟨by decide, by decide⟩, applyOps_nodup modAll stEmpty _ (by decide) (by decide)⟩

theorem transp_invol (a b v : WinId) : transp a b (transp a b v) = v := by
  unfold transp
  by_cases hab : a = b <;> by_cases h1 : v = a <;> by_cases h2 : v = b <;> simp_all

theorem transp_injective (a b : WinId) : Function.Injective (transp a b) := by
  intro x y h
  have h2 := congrArg (transp a b) h
  rwa [transp_invol, transp_invol] at h2

theorem transp_left (a b : WinId) : transp a b a = b := by
  simp [transp]

theorem transp_right (a b : WinId) : transp a b b = a := by
  unfold transp
  by_cases hab : b = a <;> simp [hab]

theorem map_transp_invol (a b : WinId) (l : List WinId) :
    (l.map (transp a b)).map (transp a b) = l := by
  rw [List.map_map]
  have h : ∀ v ∈ l, (transp a b ∘ transp a b) v = id v := fun v _ => transp_invol a b v
  rw [List.map_congr_left h, List.map_id]

theorem indexOf_map_transp (a b x : WinId) (l : List WinId) :
    List.indexOf (transp a b x) (l.map (transp a b)) = List.indexOf x l := by
  induction l with
  | nil => rfl
  | cons c l ih =>
    rw [List.map_cons, List.indexOf_cons, List.indexOf_cons, ih]
    have : (transp a b c == transp a b x) = (c == x) := by
      by_cases h : c = x
      · simp [h]
      · have h2 : transp a b c ≠ transp a b x := fun he => h (transp_injective a b he)
        simp [h, h2]
    rw [this]

/-- The two raw index assignments of engine.ts:212-213, on a duplicate-free
list containing both windows, swap the two windows: the result is the
pointwise transposition of the list. -/
theorem listSet_swap_eq_map (l : List WinId) (hnd : l.Nodup) (a b : WinId)
    (ha : a ∈ l) (hb : b ∈ l) :
    listSet (listSet l (jsIndexOf l b) a) (jsIndexOf l a) b = l.map (transp a b) := by
  have hpa : List.indexOf a l < l.length := List.indexOf_lt_length.mpr ha
  have hpb : List.indexOf b l < l.length := List.indexOf_lt_length.mpr hb
  rw [jsIndexOf_of_mem l a ha, jsIndexOf_of_mem l b hb]
  unfold listSet
  rw [if_neg (by omega : ¬ ((List.indexOf b l : Nat) : Int) < 0),
    if_neg (by omega : ¬ ((List.indexOf a l : Nat) : Int) < 0),
    Int.toNat_natCast, Int.toNat_natCast]
  apply List.ext_getElem
  · simp
  · intro j h1 h2
    have hjl : j < l.length := by simpa using h2
    rw [List.getElem_map, List.getElem_set, List.getElem_set]
    by_cases hja : j = List.indexOf a l
    · subst hja
      rw [if_pos rfl]
      have : l[List.indexOf a l] = a := List.getElem_indexOf hpa
      rw [this, transp_left]
    · rw [if_neg (fun he => hja he.symm)]
      by_cases hjb : j = List.indexOf b l
      · subst hjb
        rw [if_pos rfl]
        have : l[List.indexOf b l] = b := List.getElem_indexOf hpb
        rw [this, transp_right]
      · rw [if_neg (fun he => hjb he.symm)]
        have hna : l[j] ≠ a := by
          intro he
          apply hja
          have := List.indexOf_getElem hnd j hjl
          rw [he] at this
          omega
        have hnb : l[j] ≠ b := by
          intro he
          apply hjb
          have := List.indexOf_getElem hnd j hjl
          rw [he] at this
          omega
        simp [transp, hna, hnb]

/-- Filtering commutes with transposing two windows on which the predicate
agrees. -/
theorem filter_map_transp (p : WinId → Bool) (a b : WinId) (hp : p a = p b)
    (l : List WinId) :
    (l.map (transp a b)).filter p = (l.filter p).map (transp a b) := by
  rw [List.filter_map]
  congr 1
  apply List.filter_congr
  intro v _
  show p (transp a b v) = p v
  unfold transp
  by_cases h1 : v = a
  · simp [h1, hp]
  · by_cases h2 : v = b
    · subst h2
      by_cases hba : v = a
      · simp [hba]
      · simp [h1, hba, hp]
    · simp [h1, h2]

theorem moveTile_small (m : Model) (s : EngineState) (w : WinId) (step : Int)
    (hcur : m.currentWindow = some w)
    (hlen : (s.windows.filter (fun v => m.visible v (m.winContext w))).length < 2) :
    moveTile m s step = s := by
  by_cases h0 : (step == 0) = true
  · simp only [moveTile, h0, if_true]
  · rw [Bool.not_eq_true] at h0
    simp only [moveTile, h0, Bool.false_eq_true, if_false, hcur]
    rw [if_pos hlen]

theorem moveTile_fixed (m : Model) (s : EngineState) (w : WinId) (step : Int)
    (hcur : m.currentWindow = some w)
    (hw : w ∈ s.windows)
    (hvis : m.visible w (m.winContext w) = true)
    (heq : (((List.indexOf w (s.windows.filter (fun v => m.visible v (m.winContext w)))) : Int) + step) %
        (((s.windows.filter (fun v => m.visible v (m.winContext w))).length : Int))
        = ((List.indexOf w (s.windows.filter (fun v => m.visible v (m.winContext w)))) : Int)) :
    moveTile m s step = s := by
  set vis := s.windows.filter (fun v => m.visible v (m.winContext w)) with hvisdef
  by_cases h0 : (step == 0) = true
  · simp only [moveTile, h0, if_true]
  · rw [Bool.not_eq_true] at h0
    simp only [moveTile, h0, Bool.false_eq_true, if_false, hcur, ← hvisdef]
    by_cases hlen : vis.length < 2
    · rw [if_pos hlen]
    · rw [if_neg hlen]
      have hwmem : w ∈ vis := List.mem_filter.mpr ⟨hw, hvis⟩
      have hilen : List.indexOf w vis < vis.length := List.indexOf_lt_length.mpr hwmem
      rw [jsIndexOf_of_mem _ _ hwmem,
        jsWrapIndex _ step _ (by omega) (by exact_mod_cast hilen), heq]
      simp

/-- One `moveTile` call in the genuine-swap configuration: current window
`w` visible at first index `i` of the visible view, destination index `d`
with `d ≠ i`; the underlying list ends up transposed at `w` and the window
at visible index `d`. -/
theorem moveTile_swap (m : Model) (s : EngineState) (w : WinId) (step : Int) (d : Nat)
    (hcur : m.currentWindow = some w)
    (hnd : s.windows.Nodup)
    (hw : w ∈ s.windows)
    (hvis : m.visible w (m.winContext w) = true)
    (hge2 : 2 ≤ (s.windows.filter (fun v => m.visible v (m.winContext w))).length)
    (hd : ((((List.indexOf w (s.windows.filter (fun v => m.visible v (m.winContext w)))) : Int) + step) %
        (((s.windows.filter (fun v => m.visible v (m.winContext w))).length : Int))) = (d : Int))
    (hne : List.indexOf w (s.windows.filter (fun v => m.visible v (m.winContext w))) ≠ d) :
    moveTile m s step =
      { s with
        windows :=
          s.windows.map (transp w ((s.windows.filter (fun v => m.visible v (m.winContext w))).getD d w)) } := by
  set vis := s.windows.filter (fun v => m.visible v (m.winContext w)) with hvisdef
  have hwmem : w ∈ vis := List.mem_filter.mpr ⟨hw, hvis⟩
  have hilen : List.indexOf w vis < vis.length := List.indexOf_lt_length.mpr hwmem
  have hnum : (0 : Int) < (vis.length : Int) := by exact_mod_cast Nat.lt_of_lt_of_le Nat.zero_lt_two hge2
  have hdlt : d < vis.length := by
    have h1 := Int.emod_lt_of_pos ((List.indexOf w vis : Int) + step) hnum
    rw [hd] at h1
    exact_mod_cast h1
  have hb : vis.getD d w = vis[d] := List.getD_eq_getElem vis w hdlt
  have hbvis : vis[d] ∈ vis := List.getElem_mem hdlt
  have hbwin : vis[d] ∈ s.windows := (List.mem_filter.mp hbvis).1
  have h0 : (step == 0) = false := by
    rw [beq_eq_false_iff_ne]
    intro he
    subst he
    rw [Int.add_zero, Int.emod_eq_of_lt (by omega) (by exact_mod_cast hilen)] at hd
    exact hne (by exact_mod_cast hd)
  simp only [moveTile, h0, Bool.false_eq_true, if_false, hcur, ← hvisdef]
  rw [if_neg (by omega : ¬ vis.length < 2)]
  rw [jsIndexOf_of_mem _ _ hwmem,
    jsWrapIndex _ step _ (by omega) (by exact_mod_cast hilen), hd]
  rw [if_neg (by
    rw [beq_iff_eq]
    intro he
    exact hne (by exact_mod_cast he))]
  rw [Int.toNat_natCast, hb]
  rw [listSet_swap_eq_map s.windows hnd w vis[d] hw hbwin]

/-- Claim C6 as amended: provided the current window is in the window list,
is visible in its own context, and the list has no duplicate entries,
`moveTile(step)` followed by `moveTile(-step)` with no intervening mutation
restores the window list to its original order. -/
theorem moveTile_symmetry (m : Model) (s : EngineState) (w : WinId) (step : Int)
    (hcur : m.currentWindow = some w)
    (hnd : s.windows.Nodup)
    (hw : w ∈ s.windows)
    (hvis : m.visible w (m.winContext w) = true) :
    (moveTile m (moveTile m s step) (-step)).windows = s.windows := by
  by_cases h0 : step = 0
  · subst h0
    simp [moveTile]
  set p : WinId → Bool := fun v => m.visible v (m.winContext w) with hp
  set vis := s.windows.filter p with hvisdef
  by_cases hlen : vis.length < 2
  · rw [moveTile_small m s w step hcur hlen, moveTile_small m s w (-step) hcur hlen]
  · push_neg at hlen
    have hwmem : w ∈ vis := List.mem_filter.mpr ⟨hw, hvis⟩
    have hvnd : vis.Nodup := hnd.filter p
    have hilen : List.indexOf w vis < vis.length := List.indexOf_lt_length.mpr hwmem
    set i : Nat := List.indexOf w vis with hi
    set dI : Int := ((i : Int) + step) % (vis.length : Int) with hdI
    have hd0 : 0 ≤ dI := by
      rw [hdI]
      exact Int.emod_nonneg _ (by omega)
    have hdlt : dI < (vis.length : Int) := by
      rw [hdI]
      exact Int.emod_lt_of_pos _ (by omega)
    by_cases heq : dI = (i : Int)
    · have hfix1 : ((i : Int) + step) % (vis.length : Int) = (i : Int) := by
        rw [← hdI]
        exact heq
      rw [moveTile_fixed m s w step hcur hw hvis hfix1]
      have hfix2 : ((i : Int) + (-step)) % (vis.length : Int) = (i : Int) := by
        have hmod : ((i : Int) + step) % (vis.length : Int) = (i : Int) % (vis.length : Int) := by
          rw [hfix1, Int.emod_eq_of_lt (by omega) (by exact_mod_cast hilen)]
        have h2 := Int.ModEq.sub_right step hmod
        rw [show (i : Int) + step - step = (i : Int) by ring] at h2
        rw [show (i : Int) + (-step) = (i : Int) - step by ring, ← h2,
          Int.emod_eq_of_lt (by omega) (by exact_mod_cast hilen)]
      rw [moveTile_fixed m s w (-step) hcur hw hvis hfix2]
    · set d : Nat := dI.toNat with hd
      have hdcast : (d : Int) = dI := by
        rw [hd]
        exact Int.toNat_of_nonneg hd0
      have hdlen : d < vis.length := by
        have h3 : (d : Int) < (vis.length : Int) := hdcast ▸ hdlt
        exact_mod_cast h3
      have hne1 : i ≠ d := by
        intro he
        apply heq
        rw [← hdcast, ← he]
      have hd' : ((i : Int) + step) % (vis.length : Int) = (d : Int) := by
        rw [← hdI, ← hdcast]
      set b := vis.getD d w with hb
      have e1 : moveTile m s step = { s with windows := s.windows.map (transp w b) } :=
        moveTile_swap m s w step d hcur hnd hw hvis hlen hd' hne1
      rw [e1]
      set s1 : EngineState := { s with windows := s.windows.map (transp w b) } with hs1
      have hbval : b = vis[d] := by
        rw [hb]
        exact List.getD_eq_getElem vis w hdlen
      have hbvis : b ∈ vis := hbval ▸ List.getElem_mem hdlen
      have hbwin : b ∈ s.windows := (List.mem_filter.mp hbvis).1
      have hpb : p b = true := (List.mem_filter.mp hbvis).2
      have hnd1 : s1.windows.Nodup := by
        show (s.windows.map (transp w b)).Nodup
        exact (List.nodup_map_iff (transp_injective w b)).mpr hnd
      have hw1 : w ∈ s1.windows := by
        show w ∈ s.windows.map (transp w b)
        exact List.mem_map.mpr ⟨b, hbwin, transp_right w b⟩
      have hfil1 : s1.windows.filter p = vis.map (transp w b) := by
        show (s.windows.map (transp w b)).filter p = vis.map (transp w b)
        rw [filter_map_transp p w b (by rw [hpb]; exact hvis), ← hvisdef]
      have hiw1 : List.indexOf w (s1.windows.filter p) = d := by
        rw [hfil1]
        have h4 := indexOf_map_transp w b b vis
        rw [transp_right] at h4
        rw [h4]
        have h5 := List.indexOf_getElem hvnd d hdlen
        rw [← hbval] at h5
        exact h5
      have hfix2 : ((d : Int) + (-step)) % (vis.length : Int) = (i : Int) := by
        have hmod : (d : Int) % (vis.length : Int) = ((i : Int) + step) % (vis.length : Int) := by
          rw [hd', Int.emod_eq_of_lt (by omega) (by exact_mod_cast hdlen)]
        have h6 := Int.ModEq.sub_right step hmod
        rw [show (i : Int) + step - step = (i : Int) by ring] at h6
        rw [show (d : Int) + (-step) = (d : Int) - step by ring, h6,
          Int.emod_eq_of_lt (by omega) (by exact_mod_cast hilen)]
      have hvislen1 : 2 ≤ (s1.windows.filter p).length := by
        rw [hfil1, List.length_map]
        exact hlen
      have hd2 : ((List.indexOf w (s1.windows.filter p) : Int) + (-step)) %
          (((s1.windows.filter p).length : Int)) = ((i : Nat) : Int) := by
        rw [hiw1, hfil1, List.length_map]
        exact hfix2
      have hne2 : List.indexOf w (s1.windows.filter p) ≠ i := by
        rw [hiw1]
        exact fun he => hne1 he.symm
      have e2 : moveTile m s1 (-step) =
          { s1 with windows := s1.windows.map (transp w ((s1.windows.filter p).getD i w)) } :=
        moveTile_swap m s1 w (-step) i hcur hnd1 hw1 hvis hvislen1 hd2 hne2
      rw [e2]
      have hgd : (s1.windows.filter p).getD i w = b := by
        rw [hfil1, List.getD_eq_getElem _ w (by rw [List.length_map]; exact hilen),
          List.getElem_map]
        have h7 : vis[(i : Nat)] = w := List.getElem_indexOf hilen
        rw [h7, transp_left]
      show s1.windows.map (transp w ((s1.windows.filter p).getD i w)) = s.windows
      rw [hgd]
      show (s.windows.map (transp w b)).map (transp w b) = s.windows
      exact map_transp_invol w b s.windows

/-- Claim C6 counterexample: with windows [0, 1, 2, 3] where the current
window 0 is not visible in its own context, `moveTile(1)` then
`moveTile(-1)` yields [1, 2, 0, 3], not the original order: the visible
index of the current window is -1, and the two calls pick different swap
partners. -/
theorem moveTile_symmetry_cex :
    modInv0.currentWindow = some 0 ∧
    (moveTile modInv0 (moveTile modInv0 stTile4 1) (-1)).windows = [1, 2, 0, 3] ∧
    (moveTile modInv0 (moveTile modInv0 stTile4 1) (-1)).windows ≠ stTile4.windows := by
  decide

/-- Witness for the amended C6: with every window visible and current
window 0, `moveTile(1)` then `moveTile(-1)` restores [0, 1, 2, 3]. -/
theorem moveTile_symmetry_witness :
    (modAll.currentWindow = some 0 ∧ stTile4.windows.Nodup ∧ (0 : WinId) ∈ stTile4.windows ∧
      modAll.visible 0 (modAll.winContext 0) = true) ∧
    (moveTile modAll (moveTile modAll stTile4 1) (-1)).windows = stTile4.windows :=
  ⟨⟨by decide, by decide, by decide, by decide⟩,
   moveTile_symmetry modAll stTile4 0 1 (by decide) (by decide) (by decide) (by decide)⟩
